import Mathlib

/-!
Verification of the streaming node cache in `src/sdl_viewer/src/node_drawer.rs`
(`reshuffle`, `NodeView::new`, `NodeViewContainer` with its LRU cache, in-flight
request set and loader thread).

Modelling conventions:
- byte buffers are `List Nat`;
- a Rust panic (failed `assert_eq!`, out-of-bounds index, `.unwrap()` on an
  `Err`) is modelled by an operation returning `none`;
- the GPU/OpenGL calls in `NodeView::new` are out of scope (external
  collaborator per the spec); only the data they consume (the reshuffled
  buffers, whose element 0 is read by `BufferData`) is modelled;
- the random shuffle of `indices` is modelled by passing the permutation as an
  explicit argument (the spec requires nothing of it beyond being a permutation
  of `[0, pointCount)`);
- `lru::LruCache` and `FnvHashSet` are external crates whose sources are not in
  the repository; they are modelled from the spec: an LRU cache is a list of
  entries in most-recently-used-first order from which `put` on a fresh key at
  capacity evicts the last (least recently used) entry, and the hash set is a
  `Finset`;
- the two mpsc channels are queues inside the state; the loader thread is a
  step function that the reachability relation may interleave with the caller.
-/

/-- Position encodings, from `point_viewer::read_write::PositionEncoding` as
matched in `node_drawer.rs`. -/
inductive PositionEncoding : Type
  | Uint8
  | Uint16
  | Float32
  | Float64
deriving DecidableEq, Repr

/-- The part of `octree::NodeMeta` that `NodeView::new` and the container
consult: the point count and the position encoding.  The bounding cube and
other rendering metadata are opaque to every claim. -/
structure NodeMeta where
  num_points : Nat
  position_encoding : PositionEncoding
deriving DecidableEq, Repr

/-- `octree::NodeData`: the raw payload fetched for one node. -/
structure NodeData where
  meta : NodeMeta
  position : List Nat
  color : List Nat
deriving DecidableEq, Repr

/-- Bytes per vertex for each position encoding, from the `match` in
`NodeView::new` (lines 194-199). -/
def stride : PositionEncoding → Nat
  | PositionEncoding.Uint8 => 3
  | PositionEncoding.Uint16 => 6
  | PositionEncoding.Float32 => 12
  | PositionEncoding.Float64 => 24

/-- The slice `&old_data[i * bpv .. i * bpv + bpv]` taken by one iteration of
the `reshuffle` loop. -/
def sliceChunk (old_data : List Nat) (bpv i : Nat) : List Nat :=
  (old_data.drop (i * bpv)).take bpv

/-- The `for point_index in new_order` loop body of `reshuffle`: extend the
output with the chunk of each index in turn. -/
def reshuffleLoop (old_data : List Nat) (bpv : Nat) : List Nat → List Nat
  | [] => []
  | i :: rest => sliceChunk old_data bpv i ++ reshuffleLoop old_data bpv rest

/-- `reshuffle` (node_drawer.rs lines 34-43).  `none` models a panic: the
entry `assert_eq!(new_order.len() * bytes_per_vertex, old_data.len())`, an
out-of-range slice inside the loop, or the final
`assert_eq!(old_data.len(), new_data.len())`. -/
def reshuffle (new_order old_data : List Nat) (bpv : Nat) : Option (List Nat) :=
  if new_order.length * bpv ≠ old_data.length then none
  else if new_order.all (fun i => i * bpv + bpv ≤ old_data.length) then
    let new_data := reshuffleLoop old_data bpv new_order
    if old_data.length ≠ new_data.length then none else some new_data
  else none

/-- The data content of `NodeView`: the two buffers handed to the GPU and the
`used_memory_bytes` accounting field; `meta` is carried over. -/
structure NodeView where
  meta : NodeMeta
  buffer_position : List Nat
  buffer_color : List Nat
  used_memory_bytes : Nat
deriving DecidableEq, Repr

/-- `NodeView::new` (lines 175-259) with the random permutation passed
explicitly.  It reshuffles the position buffer (stride per encoding) and the
color buffer (stride 3), then uploads them reading `&position[0]` and
`&color[0]` — which panics (`none`) when a buffer is empty — and records
`used_memory_bytes = position.len() + color.len()`. -/
def NodeView.new (nd : NodeData) (indices : List Nat) : Option NodeView :=
  match reshuffle indices nd.position (stride nd.meta.position_encoding) with
  | none => none
  | some position =>
    match reshuffle indices nd.color 3 with
    | none => none
    | some color =>
      if position = [] then none
      else if color = [] then none
      else some
        { meta := nd.meta
          buffer_position := position
          buffer_color := color
          used_memory_bytes := position.length + color.length }

/-- The list of per-point records of a buffer holding `n` points of `bpv`
bytes each: its `n` consecutive `bpv`-sized chunks. -/
def recordsOf (n bpv : Nat) (data : List Nat) : List (List Nat) :=
  (List.range n).map (sliceChunk data bpv)

/-! ### The LRU cache (`lru::LruCache`, modelled from the spec)

Modelled from the spec: the `lru` crate is not part of this repository.  Per
spec §4.3 the cache is an LRU map bounded by entry count: `get_mut` moves the
accessed entry to most-recently-used, `contains` does not touch recency, and
inserting a new key when the map is at capacity evicts the least-recently-used
entry.  Entries are kept most-recently-used first. -/

/-- Does an association list contain a key? -/
def containsKey {α : Type} : List (Nat × α) → Nat → Bool
  | [], _ => false
  | e :: rest, k => if e.1 = k then true else containsKey rest k

/-- Look a key up in an association list. -/
def lookupKey {α : Type} : List (Nat × α) → Nat → Option α
  | [], _ => none
  | e :: rest, k => if e.1 = k then some e.2 else lookupKey rest k

/-- Remove every entry with the given key from an association list. -/
def removeKey {α : Type} : List (Nat × α) → Nat → List (Nat × α)
  | [], _ => []
  | e :: rest, k => if e.1 = k then removeKey rest k else e :: removeKey rest k

/-- An LRU cache: capacity plus entries in most-recently-used-first order. -/
structure LruCache (α : Type) where
  capacity : Nat
  entries : List (Nat × α)
deriving DecidableEq

/-- `LruCache::contains`: membership test, no recency update. -/
def LruCache.contains {α : Type} (c : LruCache α) (k : Nat) : Bool :=
  containsKey c.entries k

/-- `LruCache::get_mut`: returns the value and moves the entry to
most-recently-used. -/
def LruCache.get_mut {α : Type} (c : LruCache α) (k : Nat) :
    Option α × LruCache α :=
  match lookupKey c.entries k with
  | none => (none, c)
  | some v => (some v, ⟨c.capacity, (k, v) :: removeKey c.entries k⟩)

/-- `LruCache::put`: update-and-touch an existing key, else insert at
most-recently-used, evicting the least-recently-used entry when the cache is
at capacity. -/
def LruCache.put {α : Type} (c : LruCache α) (k : Nat) (v : α) : LruCache α :=
  if containsKey c.entries k then ⟨c.capacity, (k, v) :: removeKey c.entries k⟩
  else if c.entries.length = c.capacity then
    ⟨c.capacity, (k, v) :: c.entries.dropLast⟩
  else ⟨c.capacity, (k, v) :: c.entries⟩

/-! ### The container state machine -/

/-- The state of a `NodeViewContainer` together with the contents of the two
mpsc channels and the liveness of the loader thread.  `requested` is the
`FnvHashSet` of in-flight ids; `reqQueue` holds ids sent to the loader and not
yet fetched; `results` holds fetched payloads not yet consumed;
`loaderAlive = false` means the loader thread has exited, so its receiving end
of the request channel is dropped and a send on it fails. -/
structure ContainerState (α : Type) where
  node_views : LruCache α
  requested : Finset Nat
  reqQueue : List Nat
  results : List (Nat × NodeData)
  loaderAlive : Bool
deriving DecidableEq

/-- `NodeViewContainer::new(octree, max_nodes_in_memory)`: empty cache of the
given capacity, nothing requested, fresh channels, loader running. -/
def initState {α : Type} (cap : Nat) : ContainerState α :=
  { node_views := ⟨cap, []⟩
    requested := ∅
    reqQueue := []
    results := []
    loaderAlive := true }

/-- `NodeViewContainer::get_or_request` (lines 308-320).  If the id is
resident, `get_mut` touches recency and the view is returned.  Otherwise, if
the id is not in flight and fewer than 10 ids are in flight, it is inserted
into `requested` and sent to the loader — `send(..).unwrap()` panics (`none`)
when the loader's receiving end is gone.  Otherwise the call is a no-op
returning no view. -/
def get_or_request {α : Type} (s : ContainerState α) (id : Nat) :
    Option (Option α × ContainerState α) :=
  if s.node_views.contains id then
    some ((s.node_views.get_mut id).1,
      { s with node_views := (s.node_views.get_mut id).2 })
  else if id ∉ s.requested ∧ s.requested.card < 10 then
    if s.loaderAlive then
      some (none,
        { s with
            requested := insert id s.requested
            reqQueue := s.reqQueue ++ [id] })
    else none
  else some (none, s)

/-- `NodeViewContainer::request_all` (lines 322-329): for each id in order, if
it is neither resident nor in flight, insert it into `requested` and send it
to the loader (panicking like `get_or_request` if the loader is gone).  Note
that, unlike `get_or_request`, there is no `requested.len() < 10` test. -/
def request_all {α : Type} (s : ContainerState α) :
    List Nat → Option (ContainerState α)
  | [] => some s
  | id :: rest =>
    if ¬ s.node_views.contains id ∧ id ∉ s.requested then
      if s.loaderAlive then
        request_all
          { s with
              requested := insert id s.requested
              reqQueue := s.reqQueue ++ [id] }
          rest
      else none
    else request_all s rest

/-- The drain loop of `consume_arrived_nodes`: for each received
`(id, payload)` remove the id from `requested` and `put` the built view into
the cache.  `build` is the view construction (`NodeView::new` with the node
drawer); `none` propagates a panic inside it. -/
def drain {α : Type} (build : NodeData → Option α) :
    List (Nat × NodeData) → LruCache α → Finset Nat →
    Option (LruCache α × Finset Nat)
  | [], c, r => some (c, r)
  | (id, d) :: rest, c, r =>
    match build d with
    | none => none
    | some v => drain build rest (c.put id v) (r.erase id)

/-- `NodeViewContainer::consume_arrived_nodes` (lines 294-304): drain every
payload currently in the result channel (`try_recv` until it fails, never
blocking), returning whether anything was consumed. -/
def consume_arrived_nodes {α : Type} (build : NodeData → Option α)
    (s : ContainerState α) : Option (Bool × ContainerState α) :=
  match drain build s.results s.node_views s.requested with
  | none => none
  | some (c, r) =>
    some (!s.results.isEmpty,
      { s with node_views := c, requested := r, results := [] })

/-- One step of the loader thread (lines 278-285): take the next id from the
request channel, fetch it, and either publish the payload on the result
channel or — on fetch failure — die from the `.unwrap()` panic, dropping the
request channel's receiving end and everything queued on it. -/
def loader_step {α : Type} (fetch : Nat → Option NodeData)
    (s : ContainerState α) : ContainerState α :=
  match s.reqQueue with
  | [] => s
  | id :: rest =>
    if s.loaderAlive then
      match fetch id with
      | some d => { s with reqQueue := rest, results := s.results ++ [(id, d)] }
      | none => { s with reqQueue := [], loaderAlive := false }
    else s

/-- The loader thread's whole loop (lines 278-285) run over a request queue:
returns the list of payloads it publishes and whether it is still alive at the
end.  On the first failing fetch the `.unwrap()` panic kills the thread and
nothing further is published. -/
def loader_run (fetch : Nat → Option NodeData) :
    List Nat → List (Nat × NodeData) × Bool
  | [] => ([], true)
  | id :: rest =>
    match fetch id with
    | none => ([], false)
    | some d =>
      let r := loader_run fetch rest
      ((id, d) :: r.1, r.2)

/-- `NodeViewContainer::get_used_memory_bytes` (lines 331-336): sum of
`used_memory_bytes` over all resident views. -/
def get_used_memory_bytes (s : ContainerState NodeView) : Nat :=
  (s.node_views.entries.map (fun kv => kv.2.used_memory_bytes)).sum

/-- States reachable from a fresh container by any interleaving of
`get_or_request`, `request_all`, `consume_arrived_nodes` and loader steps.  A
call that panics yields no successor state. -/
inductive Reachable {α : Type} (build : NodeData → Option α)
    (fetch : Nat → Option NodeData) : ContainerState α → Prop
  | init (cap : Nat) : Reachable build fetch (initState cap)
  | gor {s s' : ContainerState α} {id : Nat} {v : Option α} :
      Reachable build fetch s → get_or_request s id = some (v, s') →
      Reachable build fetch s'
  | reqall {s s' : ContainerState α} {ids : List Nat} :
      Reachable build fetch s → request_all s ids = some s' →
      Reachable build fetch s'
  | consume {s s' : ContainerState α} {b : Bool} :
      Reachable build fetch s → consume_arrived_nodes build s = some (b, s') →
      Reachable build fetch s'
  | loader {s : ContainerState α} :
      Reachable build fetch s → Reachable build fetch (loader_step fetch s)

/-- States reachable without ever calling `request_all`. -/
inductive ReachableNB {α : Type} (build : NodeData → Option α)
    (fetch : Nat → Option NodeData) : ContainerState α → Prop
  | init (cap : Nat) : ReachableNB build fetch (initState cap)
  | gor {s s' : ContainerState α} {id : Nat} {v : Option α} :
      ReachableNB build fetch s → get_or_request s id = some (v, s') →
      ReachableNB build fetch s'
  | consume {s s' : ContainerState α} {b : Bool} :
      ReachableNB build fetch s → consume_arrived_nodes build s = some (b, s') →
      ReachableNB build fetch s'
  | loader {s : ContainerState α} :
      ReachableNB build fetch s → ReachableNB build fetch (loader_step fetch s)

/-! ### Helper lemmas on association lists and the LRU cache -/

lemma containsKey_iff {α : Type} (l : List (Nat × α)) (k : Nat) :
    containsKey l k = true ↔ k ∈ l.map Prod.fst := by
  induction l with
  | nil => simp [containsKey]
  | cons e rest ih =>
    by_cases h : e.1 = k
    · simp [containsKey, h]
    · simp [containsKey, h, ih, Ne.symm h]

lemma mem_removeKey {α : Type} {l : List (Nat × α)} {k : Nat} {x : Nat × α}
    (h : x ∈ removeKey l k) : x ∈ l := by
  induction l with
  | nil => simp [removeKey] at h
  | cons e rest ih =>
    by_cases he : e.1 = k
    · simp only [removeKey, if_pos he] at h
      exact List.mem_cons_of_mem _ (ih h)
    · simp only [removeKey, if_neg he, List.mem_cons] at h
      rcases h with h | h
      · exact h ▸ List.mem_cons_self _ _
      · exact List.mem_cons_of_mem _ (ih h)

lemma containsKey_removeKey_ne {α : Type} (l : List (Nat × α)) {k x : Nat}
    (hne : x ≠ k) : containsKey (removeKey l k) x = containsKey l x := by
  induction l with
  | nil => simp [removeKey]
  | cons e rest ih =>
    by_cases he : e.1 = k
    · have hex : e.1 ≠ x := fun h => hne (h.symm.trans he)
      rw [removeKey, if_pos he, ih, containsKey, if_neg hex]
    · rw [removeKey, if_neg he, containsKey, containsKey]
      by_cases hex : e.1 = x
      · rw [if_pos hex, if_pos hex]
      · rw [if_neg hex, if_neg hex, ih]

lemma removeKey_of_not_containsKey {α : Type} {l : List (Nat × α)} {k : Nat}
    (h : containsKey l k = false) : removeKey l k = l := by
  induction l with
  | nil => rfl
  | cons e rest ih =>
    by_cases he : e.1 = k
    · simp [containsKey, he] at h
    · simp only [containsKey, if_neg he] at h
      simp [removeKey, he, ih h]

lemma length_removeKey {α : Type} {l : List (Nat × α)} {k : Nat}
    (hnd : (l.map Prod.fst).Nodup) (h : containsKey l k = true) :
    (removeKey l k).length + 1 = l.length := by
  induction l with
  | nil => simp [containsKey] at h
  | cons e rest ih =>
    simp only [List.map_cons, List.nodup_cons] at hnd
    by_cases he : e.1 = k
    · have hrest : containsKey rest k = false := by
        rcases hc : containsKey rest k with _ | _
        · rfl
        · exact absurd (he ▸ (containsKey_iff rest k).mp hc) hnd.1
      simp [removeKey, he, removeKey_of_not_containsKey hrest]
    · simp only [containsKey, if_neg he] at h
      simp only [removeKey, if_neg he, List.length_cons]
      rw [Nat.succ_add, ih hnd.2 h]

lemma lookupKey_eq_none_of_not_containsKey {α : Type} {l : List (Nat × α)}
    {k : Nat} (h : containsKey l k = false) : lookupKey l k = none := by
  induction l with
  | nil => rfl
  | cons e rest ih =>
    by_cases he : e.1 = k
    · simp [containsKey, he] at h
    · simp only [containsKey, if_neg he] at h
      simp [lookupKey, he, ih h]

lemma containsKey_of_lookupKey_eq_some {α : Type} {l : List (Nat × α)}
    {k : Nat} {v : α} (h : lookupKey l k = some v) : containsKey l k = true := by
  induction l with
  | nil => simp [lookupKey] at h
  | cons e rest ih =>
    by_cases he : e.1 = k
    · simp [containsKey, he]
    · simp only [lookupKey, if_neg he] at h
      simp [containsKey, he, ih h]

lemma lookupKey_eq_some_of_containsKey {α : Type} {l : List (Nat × α)}
    {k : Nat} (h : containsKey l k = true) : ∃ v, lookupKey l k = some v := by
  induction l with
  | nil => simp [containsKey] at h
  | cons e rest ih =>
    by_cases he : e.1 = k
    · exact ⟨e.2, by simp [lookupKey, he]⟩
    · rw [containsKey, if_neg he] at h
      rcases ih h with ⟨v, hv⟩
      exact ⟨v, by simp [lookupKey, he, hv]⟩

lemma contains_get_mut {α : Type} (c : LruCache α) (k x : Nat) :
    ((c.get_mut k).2).contains x = c.contains x := by
  rcases hl : lookupKey c.entries k with _ | v
  · simp [LruCache.get_mut, hl]
  · have hk : containsKey c.entries k = true := containsKey_of_lookupKey_eq_some hl
    by_cases hx : x = k
    · subst hx
      simp only [LruCache.get_mut, hl]
      show containsKey ((x, v) :: removeKey c.entries x) x = c.contains x
      rw [containsKey, if_pos rfl, LruCache.contains, hk]
    · simp only [LruCache.get_mut, hl]
      show containsKey ((k, v) :: removeKey c.entries k) x = c.contains x
      rw [containsKey, if_neg (fun h => hx h.symm),
        containsKey_removeKey_ne c.entries hx, LruCache.contains]

lemma get_mut_entries_of_contains {α : Type} (c : LruCache α) (k : Nat)
    (h : c.contains k = true) :
    ∃ v, (c.get_mut k).1 = some v ∧
      (c.get_mut k).2.entries = (k, v) :: removeKey c.entries k ∧
      (c.get_mut k).2.capacity = c.capacity := by
  rcases lookupKey_eq_some_of_containsKey h with ⟨v, hv⟩
  exact ⟨v, by simp [LruCache.get_mut, hv]⟩

lemma mem_keys_put {α : Type} (c : LruCache α) (k : Nat) (v : α) {x : Nat}
    (h : x ∈ (c.put k v).entries.map Prod.fst) :
    x = k ∨ x ∈ c.entries.map Prod.fst := by
  unfold LruCache.put at h
  split at h
  · simp only [List.map_cons, List.mem_cons] at h
    rcases h with h | h
    · exact Or.inl h
    · rcases List.mem_map.mp h with ⟨e, he, hx⟩
      exact Or.inr (hx ▸ List.mem_map_of_mem _ (mem_removeKey he))
  · split at h
    · simp only [List.map_cons, List.mem_cons] at h
      rcases h with h | h
      · exact Or.inl h
      · rcases List.mem_map.mp h with ⟨e, he, hx⟩
        exact Or.inr (hx ▸ List.mem_map_of_mem _ (List.mem_of_mem_dropLast he))
    · simp only [List.map_cons, List.mem_cons] at h
      rcases h with h | h
      · exact Or.inl h
      · exact Or.inr h

lemma contains_put_false {α : Type} (c : LruCache α) (k : Nat) (v : α)
    {x : Nat} (hx : x ≠ k) (hc : c.contains x = false) :
    (c.put k v).contains x = false := by
  rcases h : (c.put k v).contains x with _ | _
  · rfl
  · rcases mem_keys_put c k v ((containsKey_iff _ _).mp h) with h' | h'
    · exact absurd h' hx
    · rw [LruCache.contains, (containsKey_iff _ _).mpr h'] at hc
      exact hc

/-! ### Invariant machinery for the container state machine -/

/-- The disjointness part of the spec invariant: no in-flight id is resident. -/
def DisjInv {α : Type} (s : ContainerState α) : Prop :=
  ∀ k ∈ s.requested, s.node_views.contains k = false

lemma disjInv_get_or_request {α : Type} {s s' : ContainerState α} {id : Nat}
    {v : Option α} (hd : DisjInv s) (h : get_or_request s id = some (v, s')) :
    DisjInv s' := by
  unfold get_or_request at h
  split at h
  case isTrue hres =>
    injection h with h
    injection h with hv hs
    subst hs
    intro k hk
    show ((s.node_views.get_mut id).2).contains k = false
    rw [contains_get_mut]
    exact hd k hk
  case isFalse hres =>
    split at h
    case isTrue hadm =>
      split at h
      case isTrue halive =>
        injection h with h
        injection h with hv hs
        subst hs
        intro k hk
        have hk' : k ∈ insert id s.requested := hk
        rcases Finset.mem_insert.mp hk' with hke | hke
        · subst hke
          show s.node_views.contains k = false
          rcases hcb : s.node_views.contains k with _ | _
          · rfl
          · exact absurd hcb hres
        · exact hd k hke
      case isFalse => exact absurd h (by simp)
    case isFalse =>
      injection h with h
      injection h with hv hs
      subst hs
      exact hd

lemma disjInv_request_all {α : Type} {ids : List Nat} :
    ∀ {s s' : ContainerState α}, DisjInv s → request_all s ids = some s' →
    DisjInv s' := by
  induction ids with
  | nil =>
    intro s s' hd h
    rcases Option.some.inj h with h'
    exact h' ▸ hd
  | cons id rest ih =>
    intro s s' hd h
    unfold request_all at h
    split at h
    case isTrue hcond =>
      split at h
      · refine ih ?_ h
        intro k hk
        rcases Finset.mem_insert.mp hk with hk | hk
        · subst hk
          simpa using Bool.of_not_eq_true hcond.1
        · exact hd k hk
      · exact absurd h (by simp)
    case isFalse => exact ih hd h

lemma drain_contains_false {α : Type} {build : NodeData → Option α} :
    ∀ {lst : List (Nat × NodeData)} {c c' : LruCache α} {r r' : Finset Nat},
    (∀ k ∈ r, c.contains k = false) → drain build lst c r = some (c', r') →
    ∀ k ∈ r', c'.contains k = false := by
  intro lst
  induction lst with
  | nil =>
    intro c c' r r' hd h
    rcases Option.some.inj h with h'
    rw [Prod.mk.injEq] at h'
    exact h'.1 ▸ h'.2 ▸ hd
  | cons p rest ih =>
    intro c c' r r' hd h
    rcases p with ⟨id, d⟩
    unfold drain at h
    rcases hb : build d with _ | v
    · rw [hb] at h
      exact absurd h (by simp)
    · rw [hb] at h
      refine ih ?_ h
      intro k hk
      rcases Finset.mem_erase.mp hk with ⟨hne, hkr⟩
      exact contains_put_false c id v hne (hd k hkr)

lemma disjInv_consume {α : Type} {build : NodeData → Option α}
    {s s' : ContainerState α} {b : Bool} (hd : DisjInv s)
    (h : consume_arrived_nodes build s = some (b, s')) : DisjInv s' := by
  unfold consume_arrived_nodes at h
  rcases hdr : drain build s.results s.node_views s.requested with _ | cr
  · rw [hdr] at h
    exact absurd h (by simp)
  · rw [hdr] at h
    rcases Option.some.inj h with h'
    rw [Prod.mk.injEq] at h'
    rw [← h'.2]
    intro k hk
    exact drain_contains_false hd hdr k hk

lemma disjInv_loader_step {α : Type} {fetch : Nat → Option NodeData}
    {s : ContainerState α} (hd : DisjInv s) : DisjInv (loader_step fetch s) := by
  cases hq : s.reqQueue with
  | nil => simp only [loader_step, hq]; exact hd
  | cons id rest =>
    simp only [loader_step, hq]
    by_cases ha : s.loaderAlive = true
    · simp only [if_pos ha]
      cases hf : fetch id with
      | some d => simp only [hf]; exact hd
      | none => simp only [hf]; exact hd
    · simp only [if_neg ha]
      exact hd

/-- Disjointness holds in every reachable state. -/
lemma disjInv_reachable {α : Type} {build : NodeData → Option α}
    {fetch : Nat → Option NodeData} {s : ContainerState α}
    (h : Reachable build fetch s) : DisjInv s := by
  induction h with
  | init cap => intro k hk; simp [initState] at hk
  | gor _ hstep ih => exact disjInv_get_or_request ih hstep
  | reqall _ hstep ih => exact disjInv_request_all ih hstep
  | consume _ hstep ih => exact disjInv_consume ih hstep
  | loader _ ih => exact disjInv_loader_step ih

lemma loader_step_requested {α : Type} (fetch : Nat → Option NodeData)
    (s : ContainerState α) : (loader_step fetch s).requested = s.requested := by
  cases hq : s.reqQueue with
  | nil => simp only [loader_step, hq]
  | cons id rest =>
    simp only [loader_step, hq]
    by_cases ha : s.loaderAlive = true
    · simp only [if_pos ha]
      cases hf : fetch id <;> simp only [hf]
    · simp only [if_neg ha]

lemma card_get_or_request {α : Type} {s s' : ContainerState α} {id : Nat}
    {v : Option α} (hc : s.requested.card ≤ 10)
    (h : get_or_request s id = some (v, s')) : s'.requested.card ≤ 10 := by
  unfold get_or_request at h
  split at h
  · injection h with h
    injection h with hv hs
    subst hs
    exact hc
  · split at h
    case isTrue hadm =>
      split at h
      case isTrue =>
        injection h with h
        injection h with hv hs
        subst hs
        show (insert id s.requested).card ≤ 10
        exact le_trans (Finset.card_insert_le _ _) hadm.2
      case isFalse => exact absurd h (by simp)
    case isFalse =>
      injection h with h
      injection h with hv hs
      subst hs
      exact hc

lemma drain_requested_subset {α : Type} {build : NodeData → Option α} :
    ∀ {lst : List (Nat × NodeData)} {c c' : LruCache α} {r r' : Finset Nat},
    drain build lst c r = some (c', r') → r' ⊆ r := by
  intro lst
  induction lst with
  | nil =>
    intro c c' r r' h
    injection h with h
    injection h with h1 h2
    subst h2
    exact Finset.Subset.refl _
  | cons p rest ih =>
    intro c c' r r' h
    rcases p with ⟨id, d⟩
    unfold drain at h
    rcases hb : build d with _ | v
    · rw [hb] at h
      exact absurd h (by simp)
    · rw [hb] at h
      exact (ih h).trans (Finset.erase_subset id r)

lemma consume_requested_subset {α : Type} {build : NodeData → Option α}
    {s s' : ContainerState α} {b : Bool}
    (h : consume_arrived_nodes build s = some (b, s')) :
    s'.requested ⊆ s.requested := by
  unfold consume_arrived_nodes at h
  rcases hdr : drain build s.results s.node_views s.requested with _ | cr
  · rw [hdr] at h
    exact absurd h (by simp)
  · rw [hdr] at h
    rcases cr with ⟨c, r⟩
    injection h with h
    injection h with h1 h2
    subst h2
    show r ⊆ s.requested
    exact drain_requested_subset hdr

/-- The in-flight cap holds along every history that never calls
`request_all`. -/
lemma cap_reachableNB {α : Type} {build : NodeData → Option α}
    {fetch : Nat → Option NodeData} {s : ContainerState α}
    (h : ReachableNB build fetch s) : s.requested.card ≤ 10 := by
  induction h with
  | init cap => simp [initState]
  | gor _ hstep ih => exact card_get_or_request ih hstep
  | consume _ hstep ih =>
    exact le_trans (Finset.card_le_card (consume_requested_subset hstep)) ih
  | loader _ ih =>
    rw [loader_step_requested]
    exact ih

lemma reachableNB_reachable {α : Type} {build : NodeData → Option α}
    {fetch : Nat → Option NodeData} {s : ContainerState α}
    (h : ReachableNB build fetch s) : Reachable build fetch s := by
  induction h with
  | init cap => exact Reachable.init cap
  | gor _ hstep ih => exact Reachable.gor ih hstep
  | consume _ hstep ih => exact Reachable.consume ih hstep
  | loader _ ih => exact Reachable.loader ih

/-! ### Concrete instantiations used by counterexamples and witnesses -/

/-- A trivial view builder used to instantiate the state machine. -/
def buildUnit : NodeData → Option Unit := fun _ => some ()

/-- A data source whose every fetch fails. -/
def fetchNone : Nat → Option NodeData := fun _ => none

/-- The state reached from a fresh container of capacity 100 by one
`request_all` call on the 11 distinct ids 0..10. -/
def c1State : ContainerState Unit :=
  (request_all (initState 100) (List.range 11)).getD (initState 100)

/-! ### C1 -/

/-- C1 counterexample: the claimed invariant `|InFlightSet| ≤ 10` fails on a
reachable state.  From a fresh container, a single `request_all` on the 11
distinct ids 0..10 admits all of them — `request_all` has no
`requested.len() < 10` test — leaving 11 ids in flight. -/
theorem C1_counterexample :
    Reachable buildUnit fetchNone c1State ∧ 10 < c1State.requested.card := by
  constructor
  · exact @Reachable.reqall Unit buildUnit fetchNone (initState 100) c1State
      (List.range 11) (Reachable.init 100) (by decide)
  · decide

/-- C1 (amended): in every reachable state the in-flight set is disjoint from
the resident keys of the LRU cache; the cap `|InFlightSet| ≤ 10` additionally
holds in every state reachable without `request_all` (the bulk path does not
enforce the cap, as `C1_counterexample` shows). -/
theorem C1_inflight_invariant (α : Type) (build : NodeData → Option α)
    (fetch : Nat → Option NodeData) :
    (∀ s : ContainerState α, Reachable build fetch s →
      ∀ k ∈ s.requested, s.node_views.contains k = false) ∧
    (∀ s : ContainerState α, ReachableNB build fetch s →
      s.requested.card ≤ 10 ∧
        ∀ k ∈ s.requested, s.node_views.contains k = false) :=
  ⟨fun _ hs => disjInv_reachable hs,
   fun _ hs =>
     ⟨cap_reachableNB hs, disjInv_reachable (reachableNB_reachable hs)⟩⟩

/-- The state reached from a fresh container of capacity 5 by requesting
id 3 once. -/
def c1WitnessState : ContainerState Unit :=
  ((get_or_request (initState 5) 3).getD (none, initState 5)).2

/-- Witness for C1: the amended invariant evaluated on the concrete state with
id 3 in flight. -/
theorem C1_inflight_invariant_witness :
    c1WitnessState.requested.card ≤ 10 ∧
    c1WitnessState.node_views.contains 3 = false := by
  have h := (C1_inflight_invariant Unit buildUnit fetchNone).2 c1WitnessState
    (@ReachableNB.gor Unit buildUnit fetchNone (initState 5) c1WitnessState 3
      none (ReachableNB.init 5) (by decide))
  exact ⟨h.1, h.2 3 (by decide)⟩

/-! ### C2 -/

/-- The claim's reference semantics for `request_all`: apply the per-id
`get_or_request` step to each id in order, discarding the returned views (a
panic propagates). -/
def foldAdmission {α : Type} (s : ContainerState α) :
    List Nat → Option (ContainerState α)
  | [] => some s
  | id :: rest =>
    match get_or_request s id with
    | none => none
    | some (_, s') => foldAdmission s' rest

/-- A container with ids 0..9 in flight and nothing resident. -/
def c2State : ContainerState Unit :=
  { node_views := ⟨100, []⟩
    requested := Finset.range 10
    reqQueue := List.range 10
    results := []
    loaderAlive := true }

/-- C2 counterexample: with the in-flight set already at the cap (ids 0..9),
`request_all [100]` still admits id 100 — it never checks
`requested.len() < 10` — while the per-id `get_or_request` admission drops the
request, so the two disagree on this input. -/
theorem C2_counterexample :
    request_all c2State [100] ≠ foldAdmission c2State [100] ∧
    (request_all c2State [100]).map (fun t => t.requested.card) = some 11 ∧
    foldAdmission c2State [100] = some c2State :=
  ⟨by decide, by decide, by decide⟩

lemma request_all_eq_foldAdmission_aux {α : Type} :
    ∀ (ids : List Nat) (s₁ s₂ : ContainerState α),
    s₁.requested = s₂.requested → s₁.reqQueue = s₂.reqQueue →
    s₁.loaderAlive = s₂.loaderAlive →
    (∀ k, s₁.node_views.contains k = s₂.node_views.contains k) →
    s₂.requested.card + ids.length ≤ 10 →
    (request_all s₁ ids).map (fun t => (t.requested, t.reqQueue)) =
      (foldAdmission s₂ ids).map (fun t => (t.requested, t.reqQueue)) := by
  intro ids
  induction ids with
  | nil =>
    intro s₁ s₂ hr hq ha hc hcap
    simp [request_all, foldAdmission, hr, hq]
  | cons id rest ih =>
    intro s₁ s₂ hr hq ha hc hcap
    by_cases hres : s₂.node_views.contains id = true
    · have hres₁ : s₁.node_views.contains id = true := by rw [hc id]; exact hres
      have hneg : ¬ (¬ s₁.node_views.contains id = true ∧ id ∉ s₁.requested) :=
        fun hcond => hcond.1 hres₁
      rw [request_all, if_neg hneg, foldAdmission]
      rw [show get_or_request s₂ id = some ((s₂.node_views.get_mut id).1,
        { s₂ with node_views := (s₂.node_views.get_mut id).2 }) from by
          unfold get_or_request; rw [if_pos hres]]
      refine ih s₁ _ hr hq ha ?_ ?_
      · intro k
        show s₁.node_views.contains k = ((s₂.node_views.get_mut id).2).contains k
        rw [contains_get_mut]
        exact hc k
      · show s₂.requested.card + rest.length ≤ 10
        exact le_trans (by rw [List.length_cons] at hcap; omega) le_rfl
    · have hres₁ : s₁.node_views.contains id = false := by
        rw [hc id]
        exact Bool.eq_false_iff.mpr hres
      by_cases hin : id ∈ s₂.requested
      · have hin₁ : id ∈ s₁.requested := hr ▸ hin
        have hneg : ¬ (¬ s₁.node_views.contains id = true ∧ id ∉ s₁.requested) :=
          fun hcond => hcond.2 hin₁
        rw [request_all, if_neg hneg, foldAdmission]
        have hneg₂ : ¬ (id ∉ s₂.requested ∧ s₂.requested.card < 10) :=
          fun hcond => hcond.1 hin
        rw [show get_or_request s₂ id = some (none, s₂) from by
          unfold get_or_request
          rw [if_neg hres, if_neg hneg₂]]
        refine ih s₁ s₂ hr hq ha hc ?_
        rw [List.length_cons] at hcap
        omega
      · have hin₁ : id ∉ s₁.requested := hr ▸ hin
        have hpos : ¬ s₁.node_views.contains id = true ∧ id ∉ s₁.requested :=
          ⟨by rw [hres₁]; simp, hin₁⟩
        have hcard : s₂.requested.card < 10 := by
          rw [List.length_cons] at hcap
          omega
        rw [request_all, if_pos hpos, foldAdmission]
        have hgor : get_or_request s₂ id =
            (if s₂.loaderAlive then
              some (none,
                { s₂ with
                    requested := insert id s₂.requested
                    reqQueue := s₂.reqQueue ++ [id] })
            else none) := by
          unfold get_or_request
          rw [if_neg hres, if_pos ⟨hin, hcard⟩]
        rw [hgor]
        by_cases halive : s₂.loaderAlive = true
        · have halive₁ : s₁.loaderAlive = true := ha.trans halive
          rw [if_pos halive₁, if_pos halive]
          refine ih _ _ ?_ ?_ ?_ hc ?_
          · show insert id s₁.requested = insert id s₂.requested
            rw [hr]
          · show s₁.reqQueue ++ [id] = s₂.reqQueue ++ [id]
            rw [hq]
          · exact ha
          · show (insert id s₂.requested).card + rest.length ≤ 10
            rw [Finset.card_insert_of_not_mem hin]
            rw [List.length_cons] at hcap
            omega
        · have halive₁ : ¬ s₁.loaderAlive = true := fun h => halive (ha ▸ h)
          rw [if_neg halive₁, if_neg halive]

/-- C2 (amended): `request_all` admits an id iff it is neither resident nor in
flight — it does not check the in-flight cap.  It therefore agrees with the
per-id `get_or_request` fold on the admission outcome (in-flight set and
request-channel messages) exactly when the cap is never reached along the way,
e.g. whenever `|inflight| + |ids| ≤ 10`; `C2_counterexample` shows the two
differ once the cap is reached.  (The projection ignores the LRU recency
order, which `get_or_request` touches for resident ids and `request_all`
never does.) -/
theorem C2_request_all_admission (α : Type) (s : ContainerState α)
    (ids : List Nat) (hcap : s.requested.card + ids.length ≤ 10) :
    (request_all s ids).map (fun t => (t.requested, t.reqQueue)) =
      (foldAdmission s ids).map (fun t => (t.requested, t.reqQueue)) :=
  request_all_eq_foldAdmission_aux ids s s rfl rfl rfl (fun _ => rfl) hcap

/-- Witness for C2: the equivalence evaluated on a fresh container of
capacity 3 and the id list `[7, 8, 7]`. -/
theorem C2_request_all_admission_witness :
    (request_all (initState 3 : ContainerState Unit) [7, 8, 7]).map
        (fun t => (t.requested, t.reqQueue)) =
      (foldAdmission (initState 3 : ContainerState Unit) [7, 8, 7]).map
        (fun t => (t.requested, t.reqQueue)) :=
  C2_request_all_admission Unit (initState 3) [7, 8, 7] (by decide)

/-! ### C3 -/

/-- A sample payload for the loader scenario. -/
def ndSample : NodeData :=
  { meta := { num_points := 1, position_encoding := PositionEncoding.Uint8 }
    position := [1, 2, 3]
    color := [4, 5, 6] }

/-- A data source failing exactly on id 0 (the claim's id X); id 1 (the
claim's id Y) succeeds. -/
def fetchFailsOn0 : Nat → Option NodeData :=
  fun id => if id = 0 then none else some ndSample

/-- C3: behaviour of the loader loop at the failing input.  Requesting Y = 1
alone succeeds and publishes its payload, but with the queue [X = 0, Y = 1]
the `get_node_data(..).unwrap()` panic on X kills the loader thread, so
nothing is published and Y is never served — contradicting the claim that the
loader keeps processing after a failed fetch. -/
theorem C3_loader_dies_on_fetch_failure :
    loader_run fetchFailsOn0 [1] = ([(1, ndSample)], true) ∧
    loader_run fetchFailsOn0 [0, 1] = ([], false) :=
  ⟨by decide, by decide⟩

/-! ### C6 -/

/-- C6: two successive `get_or_request` calls for the same id with no
intervening `consume_arrived_nodes` send at most one request message for that
id (the second call sees the id resident or already in `requested`), and the
in-flight set — a hash set — gains at most the single element `id`. -/
theorem C6_get_or_request_idempotent (α : Type) (s s₁ s₂ : ContainerState α)
    (id : Nat) (v₁ v₂ : Option α)
    (h₁ : get_or_request s id = some (v₁, s₁))
    (h₂ : get_or_request s₁ id = some (v₂, s₂)) :
    s₂.reqQueue.count id ≤ s.reqQueue.count id + 1 ∧
    s₂.requested ⊆ insert id s.requested := by
  unfold get_or_request at h₁
  split at h₁
  case isTrue hres =>
    injection h₁ with h₁
    injection h₁ with hv₁ hs₁
    subst hs₁
    unfold get_or_request at h₂
    rw [show (({ s with node_views := (s.node_views.get_mut id).2 } :
        ContainerState α).node_views.contains id) =
        s.node_views.contains id from contains_get_mut s.node_views id id,
      if_pos hres] at h₂
    injection h₂ with h₂
    injection h₂ with hv₂ hs₂
    subst hs₂
    constructor
    · show s.reqQueue.count id ≤ s.reqQueue.count id + 1
      omega
    · show s.requested ⊆ insert id s.requested
      exact Finset.subset_insert id s.requested
  case isFalse hres =>
    split at h₁
    case isTrue hadm =>
      split at h₁
      case isTrue halive =>
        injection h₁ with h₁
        injection h₁ with hv₁ hs₁
        subst hs₁
        unfold get_or_request at h₂
        rw [if_neg hres] at h₂
        rw [if_neg (show ¬ (id ∉ insert id s.requested ∧
            (insert id s.requested).card < 10) from
          fun hcond => hcond.1 (Finset.mem_insert_self id s.requested))] at h₂
        injection h₂ with h₂
        injection h₂ with hv₂ hs₂
        subst hs₂
        constructor
        · show (s.reqQueue ++ [id]).count id ≤ s.reqQueue.count id + 1
          rw [List.count_append]
          simp
        · show insert id s.requested ⊆ insert id s.requested
          exact Finset.Subset.refl _
      case isFalse => exact absurd h₁ (by simp)
    case isFalse hadm =>
      injection h₁ with h₁
      injection h₁ with hv₁ hs₁
      subst hs₁
      unfold get_or_request at h₂
      rw [if_neg hres, if_neg hadm] at h₂
      injection h₂ with h₂
      injection h₂ with hv₂ hs₂
      subst hs₂
      exact ⟨by omega, Finset.subset_insert id s.requested⟩

/-- The state after one `get_or_request` for id 4 on a fresh container of
capacity 2. -/
def c6State1 : ContainerState Unit :=
  ((get_or_request (initState 2) 4).getD (none, initState 2)).2

/-- The state after a second `get_or_request` for id 4. -/
def c6State2 : ContainerState Unit :=
  ((get_or_request c6State1 4).getD (none, initState 2)).2

/-- Witness for C6: the two-call bound evaluated after two requests for id 4
on a fresh container of capacity 2. -/
theorem C6_get_or_request_idempotent_witness :
    c6State2.reqQueue.count 4 ≤
      (initState 2 : ContainerState Unit).reqQueue.count 4 + 1 ∧
    c6State2.requested ⊆ insert 4 (initState 2 : ContainerState Unit).requested :=
  C6_get_or_request_idempotent Unit (initState 2) c6State1 c6State2 4 none none
    (by decide) (by decide)

/-! ### C8 -/

/-- A container whose loader thread is gone (its receiving end of the request
channel is dropped), with an empty cache. -/
def c8State : ContainerState Unit :=
  { node_views := ⟨3, []⟩
    requested := ∅
    reqQueue := []
    results := []
    loaderAlive := false }

/-- C8 counterexample: with the loader gone, `get_or_request` on a fresh id
reaches `node_id_sender.send(*node_id).unwrap()`, whose `Err(SendError)` makes
it panic (modelled as `none`) — refuting the claim that a send after the
receiving end is closed is never a crash. -/
theorem C8_counterexample : get_or_request c8State 0 = none := by decide

/-- C8 (amended): the receive side is benign — with the result channel empty
(`try_recv` only ever returns `Err`, which the `while let` discards),
`consume_arrived_nodes` is a no-op returning `false`, never a crash — and a
resident id never panics, but `get_or_request` on a dead loader panics exactly
when it attempts a send (id neither resident nor in flight, cap not reached),
and `request_all` likewise panics when it attempts a send. -/
theorem C8_channel_shutdown (α : Type) (build : NodeData → Option α) :
    (∀ s : ContainerState α, s.results = [] →
      consume_arrived_nodes build s = some (false, s)) ∧
    (∀ (s : ContainerState α) (id : Nat), s.node_views.contains id = true →
      (get_or_request s id).isSome) ∧
    (∀ (s : ContainerState α) (id : Nat), s.loaderAlive = false →
      s.node_views.contains id = false →
      (get_or_request s id = none ↔ id ∉ s.requested ∧ s.requested.card < 10)) ∧
    (∀ (s : ContainerState α) (id : Nat), s.loaderAlive = false →
      s.node_views.contains id = false → id ∉ s.requested →
      request_all s [id] = none) := by
  refine ⟨?_, ?_, ?_, ?_⟩
  · intro s hres
    cases s with
    | mk nv rq q res alive =>
      simp only at hres
      subst hres
      simp [consume_arrived_nodes, drain]
  · intro s id hres
    unfold get_or_request
    rw [if_pos hres]
    rfl
  · intro s id hal hres
    unfold get_or_request
    rw [if_neg (by simp [hres])]
    by_cases hadm : id ∉ s.requested ∧ s.requested.card < 10
    · rw [if_pos hadm, if_neg (by simp [hal])]
      exact ⟨fun _ => hadm, fun _ => rfl⟩
    · rw [if_neg hadm]
      exact iff_of_false (by simp) hadm
  · intro s id hal hres hin
    unfold request_all
    rw [if_pos ⟨by simp [hres], hin⟩, if_neg (by simp [hal])]

/-- A dead-loader container with key 7 resident. -/
def c8StateB : ContainerState Unit :=
  { node_views := ⟨3, [(7, ())]⟩
    requested := ∅
    reqQueue := []
    results := []
    loaderAlive := false }

/-- Witness for C8: the amended behaviour evaluated on a concrete dead-loader
container. -/
theorem C8_channel_shutdown_witness :
    consume_arrived_nodes buildUnit c8StateB = some (false, c8StateB) ∧
    (get_or_request c8StateB 7).isSome ∧
    (get_or_request c8StateB 9 = none ↔
      9 ∉ c8StateB.requested ∧ c8StateB.requested.card < 10) ∧
    request_all c8StateB [9] = none :=
  ⟨(C8_channel_shutdown Unit buildUnit).1 c8StateB rfl,
   (C8_channel_shutdown Unit buildUnit).2.1 c8StateB 7 (by decide),
   (C8_channel_shutdown Unit buildUnit).2.2.1 c8StateB 9 rfl (by decide),
   (C8_channel_shutdown Unit buildUnit).2.2.2 c8StateB 9 rfl (by decide)
     (by decide)⟩

/-! ### C5 -/

/-- C5: inserting a view under a fresh key into a cache holding exactly
`capacity` entries (capacity ≥ 1, so that a least-recently-used entry exists)
evicts exactly that last entry: the new key list is the new key followed by
all old keys but the last, and the resident count stays at `capacity`.  The
conjunct on the concrete capacity-2 cache is the spec's Scenario B: inserting
0, 1, 2 leaves exactly keys [2, 1] resident (0 evicted). -/
theorem C5_eviction (α : Type) (c : LruCache α) (k : Nat) (v : α)
    (hfull : c.entries.length = c.capacity) (hpos : 1 ≤ c.capacity)
    (hfresh : c.contains k = false) :
    (c.put k v).entries.length = c.capacity ∧
    (c.put k v).entries.map Prod.fst =
      k :: (c.entries.map Prod.fst).dropLast ∧
    ((((LruCache.mk 2 [] : LruCache Unit).put 0 ()).put 1 ()).put 2
        ()).entries.map Prod.fst = [2, 1] := by
  have hckey : containsKey c.entries k = false := hfresh
  have hput : c.put k v = ⟨c.capacity, (k, v) :: c.entries.dropLast⟩ := by
    unfold LruCache.put
    simp [hckey, hfull]
  refine ⟨?_, ?_, by decide⟩
  · rw [hput]
    show ((k, v) :: c.entries.dropLast).length = c.capacity
    rw [List.length_cons, List.length_dropLast, hfull]
    omega
  · rw [hput]
    show ((k, v) :: c.entries.dropLast).map Prod.fst =
      k :: (c.entries.map Prod.fst).dropLast
    rw [List.map_cons, List.map_dropLast]

/-- A full capacity-3 cache. -/
def c5Cache : LruCache Unit := ⟨3, [(1, ()), (2, ()), (3, ())]⟩

/-- Witness for C5: the eviction behaviour evaluated on a full capacity-3
cache and the fresh key 9. -/
theorem C5_eviction_witness :
    (c5Cache.put 9 ()).entries.length = c5Cache.capacity ∧
    (c5Cache.put 9 ()).entries.map Prod.fst =
      9 :: (c5Cache.entries.map Prod.fst).dropLast :=
  ⟨(C5_eviction Unit c5Cache 9 () (by decide) (by decide) (by decide)).1,
   (C5_eviction Unit c5Cache 9 () (by decide) (by decide) (by decide)).2.1⟩

/-! ### C7 -/

/-- A container whose capacity-1 cache is full, holding only key 0. -/
def c7CexState : ContainerState Unit :=
  { node_views := ⟨1, [(0, ())]⟩
    requested := ∅
    reqQueue := []
    results := []
    loaderAlive := true }

/-- C7 counterexample: at capacity 1, `get_or_request 0` returns the resident
view and moves key 0 to most-recently-used, yet the next insertion of the
distinct key 1 still evicts key 0 itself — there is no other entry — so key 0
does not remain resident, refuting the claim for caches at capacity 1. -/
theorem C7_counterexample :
    (get_or_request c7CexState 0).map
        (fun r => (r.1.isSome, (r.2.node_views.put 1 ()).entries.map Prod.fst)) =
      some (true, [1]) := by decide

/-- C7 (amended): for a full cache of capacity at least 2 with distinct keys,
`get_or_request k` on the resident key k returns its view and moves k to
most-recently-used (the head of the entry list); inserting a fresh distinct
key afterwards keeps the count at capacity and keeps both k and the new key
resident — so the evicted entry is some other one.  (At capacity 1 the claim
fails, see `C7_counterexample`.) -/
theorem C7_recency_protection (α : Type) (s : ContainerState α) (k nk : Nat)
    (v' : α) (hnodup : (s.node_views.entries.map Prod.fst).Nodup)
    (hfull : s.node_views.entries.length = s.node_views.capacity)
    (hcap : 2 ≤ s.node_views.capacity)
    (hk : s.node_views.contains k = true)
    (hnk : s.node_views.contains nk = false) :
    get_or_request s k =
      some ((s.node_views.get_mut k).1,
        { s with node_views := (s.node_views.get_mut k).2 }) ∧
    ((s.node_views.get_mut k).1).isSome ∧
    ((s.node_views.get_mut k).2.entries.map Prod.fst).head? = some k ∧
    (((s.node_views.get_mut k).2.put nk v').entries.map Prod.fst).length =
      s.node_views.capacity ∧
    k ∈ ((s.node_views.get_mut k).2.put nk v').entries.map Prod.fst ∧
    nk ∈ ((s.node_views.get_mut k).2.put nk v').entries.map Prod.fst := by
  rcases get_mut_entries_of_contains s.node_views k hk with ⟨v, hv1, hv2, hvcap⟩
  have hkne : k ≠ nk := by
    intro h
    rw [← h] at hnk
    rw [hk] at hnk
    exact Bool.noConfusion hnk
  have hrem := length_removeKey hnodup hk
  have hlen₁ : (s.node_views.get_mut k).2.entries.length =
      s.node_views.capacity := by
    rw [hv2, List.length_cons, ← hfull]
    omega
  have hcontains₁ : containsKey (s.node_views.get_mut k).2.entries nk = false := by
    rw [hv2]
    show (if k = nk then true
      else containsKey (removeKey s.node_views.entries k) nk) = false
    rw [if_neg hkne, containsKey_removeKey_ne _ (Ne.symm hkne)]
    exact hnk
  have hput : (s.node_views.get_mut k).2.put nk v' =
      ⟨s.node_views.capacity,
        (nk, v') :: (s.node_views.get_mut k).2.entries.dropLast⟩ := by
    unfold LruCache.put
    simp [hcontains₁, hlen₁, hvcap]
  have htail : removeKey s.node_views.entries k ≠ [] := by
    intro hnil
    rw [hnil] at hrem
    simp only [List.length_nil] at hrem
    rw [hfull] at hrem
    omega
  have hdrop : ((s.node_views.get_mut k).2.entries).dropLast =
      (k, v) :: (removeKey s.node_views.entries k).dropLast := by
    rw [hv2]
    exact List.dropLast_cons_of_ne_nil htail
  refine ⟨?_, ?_, ?_, ?_, ?_, ?_⟩
  · unfold get_or_request
    rw [if_pos hk]
  · rw [hv1]
    rfl
  · rw [hv2]
    rfl
  · rw [hput]
    show (((nk, v') ::
      (s.node_views.get_mut k).2.entries.dropLast).map Prod.fst).length =
      s.node_views.capacity
    rw [List.length_map, List.length_cons, List.length_dropLast, hlen₁]
    omega
  · rw [hput]
    show k ∈ ((nk, v') ::
      (s.node_views.get_mut k).2.entries.dropLast).map Prod.fst
    rw [hdrop]
    simp
  · rw [hput]
    show nk ∈ ((nk, v') ::
      (s.node_views.get_mut k).2.entries.dropLast).map Prod.fst
    simp

/-- A container whose capacity-2 cache is full with keys 5 and 6. -/
def c7WitnessState : ContainerState Unit :=
  { node_views := ⟨2, [(5, ()), (6, ())]⟩
    requested := ∅
    reqQueue := []
    results := []
    loaderAlive := true }

/-- Witness for C7: the amended recency protection evaluated on a full
capacity-2 cache, touching key 5 and then inserting key 9. -/
theorem C7_recency_protection_witness :
    get_or_request c7WitnessState 5 =
      some ((c7WitnessState.node_views.get_mut 5).1,
        { c7WitnessState with
            node_views := (c7WitnessState.node_views.get_mut 5).2 }) ∧
    ((c7WitnessState.node_views.get_mut 5).1).isSome ∧
    ((c7WitnessState.node_views.get_mut 5).2.entries.map Prod.fst).head? =
      some 5 ∧
    (((c7WitnessState.node_views.get_mut 5).2.put 9 ()).entries.map
      Prod.fst).length = c7WitnessState.node_views.capacity ∧
    5 ∈ ((c7WitnessState.node_views.get_mut 5).2.put 9 ()).entries.map
      Prod.fst ∧
    9 ∈ ((c7WitnessState.node_views.get_mut 5).2.put 9 ()).entries.map
      Prod.fst :=
  C7_recency_protection Unit c7WitnessState 5 9 () (by decide) (by decide)
    (by decide) (by decide) (by decide)

/-! ### Reshuffle and materialization lemmas -/

lemma stride_pos (e : PositionEncoding) : 3 ≤ stride e := by
  cases e <;> decide

lemma length_sliceChunk {old : List Nat} {bpv i : Nat}
    (h : i * bpv + bpv ≤ old.length) : (sliceChunk old bpv i).length = bpv := by
  unfold sliceChunk
  rw [List.length_take, List.length_drop]
  omega

lemma sliceChunk_append_zero {c : List Nat} (L : List Nat) {bpv : Nat}
    (h : c.length = bpv) : sliceChunk (c ++ L) bpv 0 = c := by
  unfold sliceChunk
  rw [Nat.zero_mul, List.drop_zero, ← h, List.take_left]

lemma sliceChunk_append_succ {c : List Nat} (L : List Nat) {bpv : Nat} (j : Nat)
    (h : c.length = bpv) :
    sliceChunk (c ++ L) bpv (j + 1) = sliceChunk L bpv j := by
  unfold sliceChunk
  rw [show (j + 1) * bpv = bpv + j * bpv from by rw [Nat.succ_mul]; omega]
  rw [← List.drop_drop]
  have h2 : (c ++ L).drop bpv = L := by
    rw [← h]
    exact List.drop_left c L
  rw [h2]

lemma length_reshuffleLoop (old : List Nat) (bpv : Nat) :
    ∀ idx : List Nat, (∀ i ∈ idx, i * bpv + bpv ≤ old.length) →
    (reshuffleLoop old bpv idx).length = idx.length * bpv := by
  intro idx
  induction idx with
  | nil => intro _; simp [reshuffleLoop]
  | cons i rest ih =>
    intro h
    rw [reshuffleLoop, List.length_append,
      length_sliceChunk (h i (List.mem_cons_self i rest)),
      ih (fun j hj => h j (List.mem_cons_of_mem i hj)),
      List.length_cons, Nat.succ_mul]
    omega

lemma recordsOf_reshuffleLoop (old : List Nat) (bpv : Nat) :
    ∀ idx : List Nat, (∀ i ∈ idx, i * bpv + bpv ≤ old.length) →
    recordsOf idx.length bpv (reshuffleLoop old bpv idx) =
      idx.map (sliceChunk old bpv) := by
  intro idx
  induction idx with
  | nil => intro _; rfl
  | cons i rest ih =>
    intro h
    have hc : (sliceChunk old bpv i).length = bpv :=
      length_sliceChunk (h i (List.mem_cons_self i rest))
    show (List.range (i :: rest).length).map
        (sliceChunk (reshuffleLoop old bpv (i :: rest)) bpv) =
      sliceChunk old bpv i :: rest.map (sliceChunk old bpv)
    rw [List.length_cons, List.range_succ_eq_map, List.map_cons, List.map_map]
    rw [show sliceChunk (reshuffleLoop old bpv (i :: rest)) bpv 0 =
        sliceChunk old bpv i from
      sliceChunk_append_zero (reshuffleLoop old bpv rest) hc]
    congr 1
    have step1 : (List.range rest.length).map
        (sliceChunk (reshuffleLoop old bpv (i :: rest)) bpv ∘ Nat.succ) =
        (List.range rest.length).map
          (sliceChunk (reshuffleLoop old bpv rest) bpv) :=
      List.map_congr_left (fun j _ =>
        sliceChunk_append_succ (reshuffleLoop old bpv rest) j hc)
    rw [step1]
    exact ih (fun j hj => h j (List.mem_cons_of_mem i hj))

lemma perm_range_bound {idx old : List Nat} {n bpv : Nat}
    (hperm : idx.Perm (List.range n)) (hlen : old.length = n * bpv) :
    ∀ i ∈ idx, i * bpv + bpv ≤ old.length := by
  intro i hi
  have hin : i < n := List.mem_range.mp (hperm.subset hi)
  rw [hlen]
  calc i * bpv + bpv = (i + 1) * bpv := by rw [Nat.succ_mul]
    _ ≤ n * bpv := Nat.mul_le_mul_right bpv hin

lemma reshuffleLoop_length_perm {idx old : List Nat} {n bpv : Nat}
    (hperm : idx.Perm (List.range n)) (hlen : old.length = n * bpv) :
    (reshuffleLoop old bpv idx).length = old.length := by
  rw [length_reshuffleLoop old bpv idx (perm_range_bound hperm hlen),
    hperm.length_eq, List.length_range, hlen]

lemma reshuffle_eq_some {idx old : List Nat} {n bpv : Nat}
    (hperm : idx.Perm (List.range n)) (hlen : old.length = n * bpv) :
    reshuffle idx old bpv = some (reshuffleLoop old bpv idx) := by
  have hidxlen : idx.length = n := by rw [hperm.length_eq, List.length_range]
  have hrange := perm_range_bound hperm hlen
  simp only [reshuffle]
  rw [if_neg (by rw [hidxlen, hlen]; omega)]
  rw [if_pos (by
    rw [List.all_eq_true]
    intro i hi
    simpa using hrange i hi)]
  rw [if_neg (by
    rw [length_reshuffleLoop old bpv idx hrange, hidxlen, hlen]
    omega)]

lemma reshuffle_nil (old : List Nat) (bpv : Nat) :
    reshuffle [] old bpv = if old.length = 0 then some [] else none := by
  by_cases h : old.length = 0
  · simp [reshuffle, reshuffleLoop, h]
  · simp [reshuffle, reshuffleLoop, h]

lemma NodeView.new_eq_some {nd : NodeData} {idx : List Nat}
    (hperm : idx.Perm (List.range nd.meta.num_points))
    (hn : 1 ≤ nd.meta.num_points)
    (hpos : nd.position.length =
      nd.meta.num_points * stride nd.meta.position_encoding)
    (hcol : nd.color.length = nd.meta.num_points * 3) :
    NodeView.new nd idx = some
      { meta := nd.meta
        buffer_position :=
          reshuffleLoop nd.position (stride nd.meta.position_encoding) idx
        buffer_color := reshuffleLoop nd.color 3 idx
        used_memory_bytes :=
          (reshuffleLoop nd.position (stride nd.meta.position_encoding)
            idx).length + (reshuffleLoop nd.color 3 idx).length } := by
  have hploop := reshuffleLoop_length_perm hperm hpos
  have hcloop := reshuffleLoop_length_perm hperm hcol
  have hs := stride_pos nd.meta.position_encoding
  have hpne : reshuffleLoop nd.position (stride nd.meta.position_encoding)
      idx ≠ [] := by
    intro h
    rw [h] at hploop
    simp only [List.length_nil] at hploop
    have h3 : stride nd.meta.position_encoding ≤
        nd.meta.num_points * stride nd.meta.position_encoding :=
      Nat.le_mul_of_pos_left _ hn
    omega
  have hcne : reshuffleLoop nd.color 3 idx ≠ [] := by
    intro h
    rw [h] at hcloop
    simp only [List.length_nil] at hcloop
    have h3 : 3 ≤ nd.meta.num_points * 3 := Nat.le_mul_of_pos_left 3 hn
    omega
  simp only [NodeView.new, reshuffle_eq_some hperm hpos,
    reshuffle_eq_some hperm hcol]
  rw [if_neg hpne, if_neg hcne]

lemma used_memory_bytes_new {nd : NodeData} {idx : List Nat} {v : NodeView}
    (h : NodeView.new nd idx = some v) :
    v.used_memory_bytes = v.buffer_position.length + v.buffer_color.length := by
  rcases h1 : reshuffle idx nd.position (stride nd.meta.position_encoding)
    with _ | p
  · simp only [NodeView.new, h1] at h
    exact Option.noConfusion h
  · rcases h2 : reshuffle idx nd.color 3 with _ | c
    · simp only [NodeView.new, h1, h2] at h
      exact Option.noConfusion h
    · simp only [NodeView.new, h1, h2] at h
      split at h
      · exact absurd h (by simp)
      · split at h
        · exact absurd h (by simp)
        · injection h with h
          subst h
          rfl

/-! ### C4 -/

/-- C4: whenever materialization completes on a payload of `N` points whose
buffers have the advertised sizes (`N × stride(e)` position bytes, `N × 3`
color bytes) and whose shuffle `indices` are a permutation of `[0, N)`, the
view's buffers again have exactly those byte lengths, and the `N` per-point
records (stride-sized chunks) of each output buffer are a permutation of the
records of the corresponding input buffer; the strides are 3/6/12/24 bytes
for Uint8/Uint16/Float32/Float64. -/
theorem C4_materialization_roundtrip (nd : NodeData) (idx : List Nat)
    (view : NodeView)
    (hperm : idx.Perm (List.range nd.meta.num_points))
    (hpos : nd.position.length =
      nd.meta.num_points * stride nd.meta.position_encoding)
    (hcol : nd.color.length = nd.meta.num_points * 3)
    (hnew : NodeView.new nd idx = some view) :
    view.buffer_position.length =
      nd.meta.num_points * stride nd.meta.position_encoding ∧
    view.buffer_color.length = nd.meta.num_points * 3 ∧
    (recordsOf nd.meta.num_points (stride nd.meta.position_encoding)
        view.buffer_position).Perm
      (recordsOf nd.meta.num_points (stride nd.meta.position_encoding)
        nd.position) ∧
    (recordsOf nd.meta.num_points 3 view.buffer_color).Perm
      (recordsOf nd.meta.num_points 3 nd.color) ∧
    stride PositionEncoding.Uint8 = 3 ∧ stride PositionEncoding.Uint16 = 6 ∧
    stride PositionEncoding.Float32 = 12 ∧
    stride PositionEncoding.Float64 = 24 := by
  have hidxlen : idx.length = nd.meta.num_points := by
    rw [hperm.length_eq, List.length_range]
  have hrangep := perm_range_bound hperm hpos
  have hrangec := perm_range_bound hperm hcol
  simp only [NodeView.new, reshuffle_eq_some hperm hpos,
    reshuffle_eq_some hperm hcol] at hnew
  split at hnew
  · exact absurd hnew (by simp)
  · split at hnew
    · exact absurd hnew (by simp)
    · injection hnew with hview
      subst hview
      refine ⟨?_, ?_, ?_, ?_, rfl, rfl, rfl, rfl⟩
      · show (reshuffleLoop nd.position (stride nd.meta.position_encoding)
          idx).length = nd.meta.num_points * stride nd.meta.position_encoding
        rw [reshuffleLoop_length_perm hperm hpos, hpos]
      · show (reshuffleLoop nd.color 3 idx).length = nd.meta.num_points * 3
        rw [reshuffleLoop_length_perm hperm hcol, hcol]
      · show (recordsOf nd.meta.num_points (stride nd.meta.position_encoding)
            (reshuffleLoop nd.position (stride nd.meta.position_encoding)
              idx)).Perm
          (recordsOf nd.meta.num_points (stride nd.meta.position_encoding)
            nd.position)
        rw [← hidxlen]
        rw [recordsOf_reshuffleLoop nd.position
          (stride nd.meta.position_encoding) idx hrangep]
        refine List.Perm.map (sliceChunk nd.position
          (stride nd.meta.position_encoding)) ?_
        rw [hidxlen]
        exact hperm
      · show (recordsOf nd.meta.num_points 3
            (reshuffleLoop nd.color 3 idx)).Perm
          (recordsOf nd.meta.num_points 3 nd.color)
        rw [← hidxlen]
        rw [recordsOf_reshuffleLoop nd.color 3 idx hrangec]
        refine List.Perm.map (sliceChunk nd.color 3) ?_
        rw [hidxlen]
        exact hperm

/-- A 4-point Float32 payload: 48 position bytes, 12 color bytes. -/
def nd4 : NodeData :=
  { meta := { num_points := 4, position_encoding := PositionEncoding.Float32 }
    position := List.range 48
    color := List.range 12 }

/-- A concrete shuffle order for the 4 points. -/
def idx4 : List Nat := [2, 0, 3, 1]

/-- The view materialized from `nd4` under `idx4`. -/
def view4 : NodeView :=
  (NodeView.new nd4 idx4).getD
    { meta := nd4.meta, buffer_position := [], buffer_color := [],
      used_memory_bytes := 0 }

/-- Witness for C4: the round-trip evaluated on the spec's Scenario C payload
(4 points, Float32): 48 position bytes and 12 color bytes come out, with the
per-point records permuted. -/
theorem C4_materialization_roundtrip_witness :
    view4.buffer_position.length = 48 ∧ view4.buffer_color.length = 12 ∧
    (recordsOf nd4.meta.num_points (stride nd4.meta.position_encoding)
        view4.buffer_position).Perm
      (recordsOf nd4.meta.num_points (stride nd4.meta.position_encoding)
        nd4.position) ∧
    (recordsOf nd4.meta.num_points 3 view4.buffer_color).Perm
      (recordsOf nd4.meta.num_points 3 nd4.color) := by
  have h := C4_materialization_roundtrip nd4 idx4 view4 (by decide) (by decide)
    (by decide) (by decide)
  exact ⟨h.1, h.2.1, h.2.2.1, h.2.2.2.1⟩

/-! ### C9 -/

/-- C9: `get_used_memory_bytes` is the sum over all resident views of their
`used_memory_bytes` field, and for every view produced by `NodeView::new` that
field equals the total byte length of its position buffer plus its color
buffer, so for a cache populated by materialization the reported total is the
sum of the buffer lengths. -/
theorem C9_used_bytes (s : ContainerState NodeView)
    (hviews : ∀ kv ∈ s.node_views.entries,
      ∃ (nd : NodeData) (idx : List Nat), NodeView.new nd idx = some kv.2) :
    get_used_memory_bytes s =
      (s.node_views.entries.map
        (fun kv => kv.2.buffer_position.length +
          kv.2.buffer_color.length)).sum := by
  unfold get_used_memory_bytes
  congr 1
  apply List.map_congr_left
  intro kv hkv
  rcases hviews kv hkv with ⟨nd, idx, hnew⟩
  exact used_memory_bytes_new hnew

/-- A 1-point Uint8 payload. -/
def nd1 : NodeData :=
  { meta := { num_points := 1, position_encoding := PositionEncoding.Uint8 }
    position := [10, 11, 12]
    color := [20, 21, 22] }

/-- The view materialized from `nd1`. -/
def view1 : NodeView :=
  (NodeView.new nd1 [0]).getD
    { meta := nd1.meta, buffer_position := [], buffer_color := [],
      used_memory_bytes := 0 }

/-- A container with `view1` resident under key 2. -/
def c9State : ContainerState NodeView :=
  { node_views := ⟨4, [(2, view1)]⟩
    requested := ∅
    reqQueue := []
    results := []
    loaderAlive := true }

/-- Witness for C9: the memory accounting evaluated on a container holding
one materialized view. -/
theorem C9_used_bytes_witness :
    get_used_memory_bytes c9State =
      (c9State.node_views.entries.map
        (fun kv => kv.2.buffer_position.length +
          kv.2.buffer_color.length)).sum :=
  C9_used_bytes c9State (by
    intro kv hkv
    simp only [c9State, List.mem_singleton] at hkv
    subst hkv
    exact ⟨nd1, [0], by decide⟩)

/-! ### C10 -/

/-- C10: materialization is partial at the zero-point edge case.  For every
payload with `pointCount = 0` (whose shuffle order is then necessarily empty),
`NodeView::new` panics — either at a `reshuffle` length assertion when a
buffer is nonempty, or at the `&position[0]` / `&color[0]` indexing of the
empty permuted buffers.  With `pointCount ≥ 1` and well-sized buffers the
indexing is in bounds and materialization succeeds.  And `reshuffle` panics
whenever `new_order.len() * bytes_per_vertex ≠ old_data.len()`. -/
theorem C10_zero_point_panic :
    (∀ (nd : NodeData) (idx : List Nat),
      idx.Perm (List.range nd.meta.num_points) → nd.meta.num_points = 0 →
      NodeView.new nd idx = none) ∧
    (∀ (nd : NodeData) (idx : List Nat),
      idx.Perm (List.range nd.meta.num_points) → 1 ≤ nd.meta.num_points →
      nd.position.length =
        nd.meta.num_points * stride nd.meta.position_encoding →
      nd.color.length = nd.meta.num_points * 3 →
      (NodeView.new nd idx).isSome) ∧
    (∀ (new_order old_data : List Nat) (bpv : Nat),
      new_order.length * bpv ≠ old_data.length →
      reshuffle new_order old_data bpv = none) := by
  refine ⟨?_, ?_, ?_⟩
  · intro nd idx hperm hn
    have hidx : idx = [] := by
      rw [hn, List.range_zero] at hperm
      exact hperm.eq_nil
    subst hidx
    by_cases hp : nd.position.length = 0
    · by_cases hc : nd.color.length = 0
      · simp only [NodeView.new, reshuffle_nil, if_pos hp, if_pos hc]
        simp
      · simp only [NodeView.new, reshuffle_nil, if_pos hp, if_neg hc]
    · simp only [NodeView.new, reshuffle_nil, if_neg hp]
  · intro nd idx hperm hn hpos hcol
    rw [NodeView.new_eq_some hperm hn hpos hcol]
    rfl
  · intro new_order old_data bpv hne
    unfold reshuffle
    rw [if_pos hne]

/-- A 0-point payload with empty buffers. -/
def nd0 : NodeData :=
  { meta := { num_points := 0, position_encoding := PositionEncoding.Float32 }
    position := []
    color := [] }

/-- Witness for C10: the zero-point panic, the one-point success and a
length-mismatch `reshuffle` panic at concrete inputs. -/
theorem C10_zero_point_panic_witness :
    NodeView.new nd0 [] = none ∧
    (NodeView.new nd1 [0]).isSome ∧
    reshuffle [0] [1, 2, 3] 5 = none :=
  ⟨C10_zero_point_panic.1 nd0 [] (by decide) rfl,
   C10_zero_point_panic.2.1 nd1 [0] (by decide) (by decide) (by decide)
     (by decide),
   C10_zero_point_panic.2.2 [0] [1, 2, 3] 5 (by decide)⟩
